import Mathlib

/-!
Verification development for the iro-game party-game repository.

The code under scrutiny is a TypeScript client (React components plus
Supabase-backed services).  We shallowly embed the session, round and
deduction-game logic that the specification describes: JavaScript objects
keyed by participant id become association lists, Supabase tables become
lists of row structures together with their schema constraints, and the
event-driven handlers become pure transition functions on the embedded
client state.
-/

namespace IroGame

/-! ## JavaScript object helpers

A plain JS object keyed by participant id is embedded as an association
list that preserves insertion order.  The spread update
`\x7b ...prev, [k]: v \x7d` keeps the position of an existing key and
appends a fresh key at the end. -/

/-- Embedding of the JS object spread update: replace the value at key `k`
in place if present, otherwise append `(k, v)` (object keys are unique, so
at most one entry carries `k`). -/
def objInsert (m : List (String × α)) (k : String) (v : α) : List (String × α) :=
  match m with
  | [] => [(k, v)]
  | p :: rest => if p.1 == k then (k, v) :: rest else p :: objInsert rest k v

/-- Embedding of `Object.values`. -/
def objValues (m : List (String × α)) : List α := m.map Prod.snd

/-- Embedding of `Object.keys`. -/
def objKeys (m : List (String × α)) : List String := m.map Prod.fst

theorem lookup_objInsert_self (m : List (String × α)) (k : String) (v : α) :
    (objInsert m k v).lookup k = some v := by
  induction m with
  | nil => simp [objInsert, List.lookup]
  | cons p rest ih =>
    by_cases hp : p.1 = k
    · simp [objInsert, hp, List.lookup]
    · have hpb : ¬ (p.1 == k) = true := by simpa using hp
      have hkp : ¬ (k == p.1) = true := by simpa using fun hh => hp hh.symm
      simp only [objInsert, if_neg hpb, List.lookup, hkp]
      simpa using ih

theorem lookup_objInsert_ne (m : List (String × α)) (k k' : String) (v : α)
    (h : k' ≠ k) : (objInsert m k v).lookup k' = m.lookup k' := by
  induction m with
  | nil =>
    have : ¬ (k' == k) = true := by simpa using h
    simp [objInsert, List.lookup, this]
  | cons p rest ih =>
    by_cases hp : p.1 = k
    · have hk' : ¬ (k' == k) = true := by simpa using h
      have hk2 : ¬ (k' == p.1) = true := by
        simpa [hp] using h
      simp [objInsert, hp, List.lookup, hk', hk2]
    · have hpb : ¬ (p.1 == k) = true := by simpa using hp
      simp only [objInsert, if_neg hpb, List.lookup]
      cases hck : (k' == p.1) with
      | true => simp
      | false => simpa using ih

/-! ## Round result computation

The three prompt-answer components compute their reveal result as a pure
function of `Object.values(gameState.responses)`.  We embed the value
lists directly; `new Set(l)` becomes `l.dedup` (JS sets iterate in
first-occurrence order, and `size` is the number of distinct values). -/

/-- Embedding of `responseValues.filter((rank, index) =>
responseValues.indexOf(rank) !== index)` from RankingGame.tsx: the
occurrences of a value after its first occurrence. -/
def duplicates (vs : List Int) : List Int :=
  (vs.enum.filter fun p => vs.indexOf p.2 != p.1).map Prod.snd

/-- Embedding of `[...new Set(duplicates)]` from RankingGame.tsx. -/
def duplicateRanks (vs : List Int) : List Int := (duplicates vs).dedup

/-- Embedding of `uniqueRanks.size === responseValues.length &&
responseValues.length > 0` from RankingGame.tsx. -/
def rankingIsSuccess (vs : List Int) : Bool :=
  (vs.dedup.length == vs.length) && decide (0 < vs.length)

/-- Embedding of `uniqueAnswers.size === 1 && responseValues.length > 0`
from the synchro component. -/
def synchroIsSuccess (vs : List String) : Bool :=
  (vs.dedup.length == 1) && decide (0 < vs.length)

/-- Embedding of JavaScript `String.prototype.trim`: strip leading and
trailing whitespace characters. -/
def jsTrim (s : String) : String :=
  ⟨((s.data.dropWhile Char.isWhitespace).reverse.dropWhile Char.isWhitespace).reverse⟩

/-- Embedding of the synchro `handleSubmitAnswer` guard and payload: a
non-submitting call returns `none`; otherwise the persisted and broadcast
answer is the trimmed input text. -/
def synchroSubmittedValue (hasAnswered : Bool) (currentAnswer : String)
    (questionId : String) : Option String :=
  if hasAnswered || jsTrim currentAnswer == "" || questionId == "" then none
  else some (jsTrim currentAnswer)

theorem indexOf_le_of_getElem (vs : List Int) (v : Int) :
    ∀ (i : Nat) (h : i < vs.length), vs[i] = v → vs.indexOf v ≤ i := by
  induction vs with
  | nil => intro i h; simp at h
  | cons a t ih =>
    intro i h hv
    by_cases ha : a == v
    · simp [List.indexOf_cons, ha]
    · match i with
      | 0 => simp_all
      | j + 1 =>
        have hj : j < t.length := by simpa using h
        have : t.indexOf v ≤ j := ih j hj (by simpa using hv)
        simp [List.indexOf_cons, ha]
        omega

theorem mem_duplicates_iff (vs : List Int) (v : Int) :
    v ∈ duplicates vs ↔ 2 ≤ vs.count v := by
  constructor
  · intro hmem
    unfold duplicates at hmem
    obtain ⟨p, hp, hpv⟩ := List.mem_map.mp hmem
    obtain ⟨hpe, hpf⟩ := List.mem_filter.mp hp
    have hidx : vs.indexOf p.2 ≠ p.1 := by simpa using hpf
    have hget : vs[p.1]? = some p.2 := List.mem_enum_iff_getElem?.mp hpe
    obtain ⟨hlt, hgv⟩ := List.getElem?_eq_some.mp hget
    have hvm : v ∈ vs := hpv ▸ hgv ▸ List.getElem_mem hlt
    have hidxlt : vs.indexOf v < vs.length := List.indexOf_lt_length.mpr hvm
    have hle : vs.indexOf v ≤ p.1 := indexOf_le_of_getElem vs v p.1 hlt (hpv ▸ hgv)
    have hne : vs.indexOf v < p.1 := lt_of_le_of_ne hle (hpv ▸ hidx)
    have hdup : List.Duplicate v vs := by
      refine List.duplicate_iff_exists_distinct_get.mpr
        ⟨⟨vs.indexOf v, hidxlt⟩, ⟨p.1, hlt⟩, hne, ?_, ?_⟩
      · exact (List.getElem_indexOf hidxlt).symm
      · simpa using (hpv ▸ hgv).symm
    exact List.duplicate_iff_two_le_count.mp hdup
  · intro hcount
    have hdup := List.duplicate_iff_two_le_count.mpr hcount
    obtain ⟨n, m, hnm, hn, hm⟩ := List.duplicate_iff_exists_distinct_get.mp hdup
    have hvm : v ∈ vs := hn ▸ List.get_mem vs n.1 n.2
    have hle : vs.indexOf v ≤ n.1 :=
      indexOf_le_of_getElem vs v n.1 n.2 (by simpa [List.get_eq_getElem] using hn.symm)
    refine List.mem_map.mpr ⟨(m.1, v), List.mem_filter.mpr ⟨?_, ?_⟩, rfl⟩
    · exact List.mem_enum_iff_getElem?.mpr
        (by simpa [List.getElem?_eq_getElem m.2, List.get_eq_getElem] using hm.symm)
    · have : vs.indexOf v ≠ m.1 := by
        have : (n : Nat) < (m : Nat) := hnm
        omega
      simpa using this

theorem dedup_length_eq_iff_nodup (vs : List Int) :
    vs.dedup.length = vs.length ↔ vs.Nodup := by
  constructor
  · intro h
    exact List.dedup_eq_self.mp ((List.dedup_sublist vs).eq_of_length h)
  · intro h
    rw [List.dedup_eq_self.mpr h]

/-- C4: for every non-empty answer set of a ranking round, the result is
success iff the submitted ranks are pairwise distinct, and the reported
collision list contains exactly the values that occur at least twice. -/
theorem claim_C4_ranking_success_predicate (vs : List Int) (hne : vs ≠ []) :
    (rankingIsSuccess vs = true ↔ vs.Nodup)
    ∧ (∀ v : Int, v ∈ duplicateRanks vs ↔ 2 ≤ vs.count v) := by
  constructor
  · unfold rankingIsSuccess
    have hpos : 0 < vs.length := List.length_pos.mpr hne
    simp only [Bool.and_eq_true, beq_iff_eq, decide_eq_true_eq]
    rw [dedup_length_eq_iff_nodup]
    exact ⟨fun h => h.1, fun h => ⟨h, hpos⟩⟩
  · intro v
    unfold duplicateRanks
    rw [List.mem_dedup]
    exact mem_duplicates_iff vs v

/-- Witness for C4 at the inputs named by the spec: ranks 1,2,3 over three
participants succeed; ranks 1,2,2 fail reporting the collision on 2. -/
theorem claim_C4_ranking_witness :
    (rankingIsSuccess [1, 2, 3] = true ↔ ([1, 2, 3] : List Int).Nodup)
    ∧ rankingIsSuccess [1, 2, 3] = true
    ∧ rankingIsSuccess [1, 2, 2] = false
    ∧ duplicateRanks [1, 2, 2] = [2]
    ∧ (2 ∈ duplicateRanks [1, 2, 2] ↔ 2 ≤ ([1, 2, 2] : List Int).count 2) :=
  ⟨(claim_C4_ranking_success_predicate [1, 2, 3] (by decide)).1,
   by decide, by decide, by decide,
   (claim_C4_ranking_success_predicate [1, 2, 2] (by decide)).2 2⟩

theorem nodup_all_eq_length_le_one (l : List String) (hnd : l.Nodup)
    (hall : ∀ a ∈ l, ∀ b ∈ l, a = b) : l.length ≤ 1 := by
  match l with
  | [] => simp
  | [a] => simp
  | a :: b :: t =>
    exfalso
    have hab : a = b := hall a (by simp) b (by simp)
    have : a ∉ b :: t := (List.nodup_cons.mp hnd).1
    exact this (hab ▸ List.mem_cons_self b t)

/-- C5: for every non-empty answer set of a synchro round, the result is
success iff all submitted text values are identical under exact string
equality (no case folding, no whitespace folding of the stored values). -/
theorem claim_C5_synchro_success_predicate (vs : List String) (hne : vs ≠ []) :
    synchroIsSuccess vs = true ↔ ∀ a ∈ vs, ∀ b ∈ vs, a = b := by
  unfold synchroIsSuccess
  have hpos : 0 < vs.length := List.length_pos.mpr hne
  simp only [Bool.and_eq_true, beq_iff_eq, decide_eq_true_eq]
  constructor
  · rintro ⟨hlen, -⟩
    obtain ⟨x, hx⟩ := List.length_eq_one.mp hlen
    intro a ha b hb
    have hax : a = x := by
      have : a ∈ vs.dedup := List.mem_dedup.mpr ha
      rw [hx] at this; simpa using this
    have hbx : b = x := by
      have : b ∈ vs.dedup := List.mem_dedup.mpr hb
      rw [hx] at this; simpa using this
    rw [hax, hbx]
  · intro hall
    refine ⟨?_, hpos⟩
    have hled : vs.dedup.length ≤ 1 := by
      refine nodup_all_eq_length_le_one vs.dedup (List.nodup_dedup vs) ?_
      intro a ha b hb
      exact hall a (List.mem_dedup.mp ha) b (List.mem_dedup.mp hb)
    have hged : 1 ≤ vs.dedup.length := by
      obtain ⟨x, hx⟩ := List.exists_mem_of_ne_nil vs hne
      have : x ∈ vs.dedup := List.mem_dedup.mpr hx
      exact List.length_pos.mpr (List.ne_nil_of_mem this)
    omega

/-- Witness for C5 at the inputs named by the spec: three equal answers
succeed; a case difference fails; the handler stores the trimmed input. -/
theorem claim_C5_synchro_witness :
    (synchroIsSuccess ["apple", "apple", "apple"] = true ↔
      ∀ a ∈ ["apple", "apple", "apple"], ∀ b ∈ ["apple", "apple", "apple"], a = b)
    ∧ synchroIsSuccess ["apple", "apple", "apple"] = true
    ∧ synchroIsSuccess ["apple", "Apple"] = false
    ∧ synchroSubmittedValue false "apple" "q1" = some "apple" :=
  ⟨claim_C5_synchro_success_predicate ["apple", "apple", "apple"] (by decide),
   by decide, by decide, by decide⟩

/-! ## Client state of the three prompt-answer games

The survey (AnonymousSurveyGame), ranking (RankingGame) and synchro
components each keep a `GameState` with the same phase union and a
`responses` object keyed by participant id. -/

inductive RoundPhase
  | waiting_for_question
  | questioner_selected
  | answering
  | results
deriving DecidableEq, Repr

/-- GameState of the survey component (answers are booleans). -/
structure SurveyState where
  phase : RoundPhase
  question : String
  questionId : String
  responses : List (String × Bool)
  questionerId : String
  questionerName : String
  sessionId : String
deriving DecidableEq, Repr

/-- GameState of RankingGame.tsx (answers are integer ranks). -/
structure RankingState where
  phase : RoundPhase
  question : String
  questionId : String
  responses : List (String × Int)
  questionerId : String
  questionerName : String
  sessionId : String
deriving DecidableEq, Repr

/-- GameState of the synchro component (answers are free text). -/
structure SynchroState where
  phase : RoundPhase
  question : String
  questionId : String
  responses : List (String × String)
  gmId : String
  gmName : String
  sessionId : String
deriving DecidableEq, Repr

/-! ## Store rows and service reads (gameService.ts)

A Supabase query either yields data or an error object; services catch
the error and substitute a fallback, so each read is embedded as a total
function of the query outcome. -/

/-- Outcome of one underlying store query. -/
inductive QueryResult (α : Type)
  | ok (data : α)
  | err (msg : String)
deriving DecidableEq, Repr

structure GameSessionRow where
  id : String
  room_id : String
  game_type : String
  status : String
  created_by : Option String
deriving DecidableEq, Repr

structure GameQuestionRow where
  id : String
  session_id : String
  question : String
  questioner_id : String
  is_active : Bool
deriving DecidableEq, Repr

structure RankingQuestionRow where
  id : String
  session_id : String
  question : String
  questioner_id : String
  is_active : Bool
deriving DecidableEq, Repr

structure SynchroQuestionRow where
  id : String
  session_id : String
  question : String
  gm_id : String
  is_active : Bool
deriving DecidableEq, Repr

structure GameResponseRow where
  question_id : String
  participant_id : String
  response : Bool
deriving DecidableEq, Repr

structure RankingResponseRow where
  question_id : String
  participant_id : String
  rank_choice : Int
deriving DecidableEq, Repr

structure SynchroResponseRow where
  question_id : String
  participant_id : String
  answer : String
deriving DecidableEq, Repr

/-- CACHE_DURATION from gameService.ts (milliseconds). -/
def CACHE_DURATION : Nat := 2000

/-- Embedding of the three cached list reads of gameService.ts
(getQuestionResponses, getRankingResponses, getSynchroResponses, which
are textually identical up to the table name): a cache entry younger than
CACHE_DURATION is returned as is; otherwise the store is queried, a
successful result is cached and returned, and a query error is swallowed
by the catch block which returns the empty list, leaving the cache
untouched. -/
def cachedListRead (cache : Option (List α × Nat)) (now : Nat)
    (qres : QueryResult (List α)) : List α × Option (List α × Nat) :=
  match cache with
  | some (d, ts) =>
    if now - ts < CACHE_DURATION then (d, some (d, ts))
    else
      match qres with
      | .ok data => (data, some (data, now))
      | .err _ => ([], some (d, ts))
  | none =>
    match qres with
    | .ok data => (data, some (data, now))
    | .err _ => ([], none)

/-- Read of game_responses for one question (gameService.getQuestionResponses). -/
def getQuestionResponses (cache : Option (List GameResponseRow × Nat)) (now : Nat)
    (qres : QueryResult (List GameResponseRow)) :
    List GameResponseRow × Option (List GameResponseRow × Nat) :=
  cachedListRead cache now qres

/-- Read of ranking_responses for one question (gameService.getRankingResponses). -/
def getRankingResponses (cache : Option (List RankingResponseRow × Nat)) (now : Nat)
    (qres : QueryResult (List RankingResponseRow)) :
    List RankingResponseRow × Option (List RankingResponseRow × Nat) :=
  cachedListRead cache now qres

/-- Read of synchro_responses for one question (gameService.getSynchroResponses). -/
def getSynchroResponses (cache : Option (List SynchroResponseRow × Nat)) (now : Nat)
    (qres : QueryResult (List SynchroResponseRow)) :
    List SynchroResponseRow × Option (List SynchroResponseRow × Nat) :=
  cachedListRead cache now qres

/-- gameService.getActiveGameSession: the catch block maps any failure to null. -/
def getActiveGameSession (qres : QueryResult (Option GameSessionRow)) :
    Option GameSessionRow :=
  match qres with
  | .ok d => d
  | .err _ => none

/-- gameService.getActiveQuestions: the catch block maps any failure to three
empty lists (an individual query error inside the try already degrades to an
empty list through the `data || []` fallback). -/
def getActiveQuestions
    (qres : QueryResult (List GameQuestionRow × List RankingQuestionRow × List SynchroQuestionRow)) :
    List GameQuestionRow × List RankingQuestionRow × List SynchroQuestionRow :=
  match qres with
  | .ok t => t
  | .err _ => ([], [], [])

/-! ## Reveal paths of the three prompt-answer games -/

/-- Embedding of the reduce in the survey handleShowResults:
`responses.reduce((acc, r) => (\x7b ...acc, [r.participant_id]: r.response \x7d), \x7b\x7d)`. -/
def responseMapOf (rows : List GameResponseRow) : List (String × Bool) :=
  rows.foldl (fun acc r => objInsert acc r.participant_id r.response) []

/-- Embedding of the survey handleShowResults (part of AnonymousSurveyGame):
when a question is active it re-reads the answers through
getQuestionResponses, broadcasts the authoritative map as sync_responses
(returned as the second component) and installs it locally, then switches
the phase to results. -/
def surveyHandleShowResults (s : SurveyState)
    (cache : Option (List GameResponseRow × Nat)) (now : Nat)
    (qres : QueryResult (List GameResponseRow)) :
    SurveyState × Option (List (String × Bool)) :=
  if s.questionId != "" then
    let fetched := (getQuestionResponses cache now qres).1
    let m := responseMapOf fetched
    ({ s with responses := m, phase := .results }, some m)
  else ({ s with phase := .results }, none)

/-- Embedding of RankingGame.tsx handleShowResults: it broadcasts an empty
ranking_show_results event and switches the phase; the responses object is
left as accumulated from broadcasts, with no store read. -/
def rankingHandleShowResults (s : RankingState) : RankingState :=
  { s with phase := .results }

/-- Embedding of the synchro handleShowResults: it broadcasts an empty
synchro_show_results event and switches the phase; no store read. -/
def synchroHandleShowResults (s : SynchroState) : SynchroState :=
  { s with phase := .results }

theorem lookup_foldl_objInsert_not_mem (rest : List GameResponseRow)
    (k : String) (hk : ∀ rr ∈ rest, rr.participant_id ≠ k) :
    ∀ acc : List (String × Bool),
      ((rest.foldl (fun a rr => objInsert a rr.participant_id rr.response) acc).lookup k
        = acc.lookup k) := by
  induction rest with
  | nil => intro acc; rfl
  | cons y t ih =>
    intro acc
    have hy : y.participant_id ≠ k := hk y (by simp)
    have ht : ∀ rr ∈ t, rr.participant_id ≠ k := fun rr hrr => hk rr (by simp [hrr])
    simp only [List.foldl_cons]
    rw [ih ht]
    exact lookup_objInsert_ne acc y.participant_id k y.response (fun h => hy h.symm)

theorem lookup_foldl_objInsert (rows : List GameResponseRow)
    (hnd : (rows.map fun r => r.participant_id).Nodup) :
    ∀ (acc : List (String × Bool)) (r : GameResponseRow), r ∈ rows →
      ((rows.foldl (fun a rr => objInsert a rr.participant_id rr.response) acc).lookup
        r.participant_id = some r.response) := by
  induction rows with
  | nil => intro acc r hr; simp at hr
  | cons x rest ih =>
    intro acc r hr
    have hnd' : (rest.map fun r => r.participant_id).Nodup :=
      (List.nodup_cons.mp hnd).2
    have hx : x.participant_id ∉ rest.map fun r => r.participant_id :=
      (List.nodup_cons.mp hnd).1
    rcases List.mem_cons.mp hr with heq | hmem
    · subst heq
      simp only [List.foldl_cons]
      have hnotin : ∀ rr ∈ rest, rr.participant_id ≠ r.participant_id := by
        intro rr hrr hcontra
        exact hx (hcontra ▸ List.mem_map_of_mem (fun q => q.participant_id) hrr)
      rw [lookup_foldl_objInsert_not_mem rest r.participant_id hnotin]
      exact lookup_objInsert_self acc r.participant_id r.response
    · simp only [List.foldl_cons]
      exact ih hnd' (objInsert acc x.participant_id x.response) r hmem

theorem lookup_responseMapOf (rows : List GameResponseRow)
    (hnd : (rows.map fun r => r.participant_id).Nodup) (r : GameResponseRow)
    (hr : r ∈ rows) :
    (responseMapOf rows).lookup r.participant_id = some r.response :=
  lookup_foldl_objInsert rows hnd [] r hr

/-- C1 counterexample: in the ranking game, an answer by participant A that
is persisted in the store (the authoritative read would return it) is
absent from the revealed result set when the reveal is triggered on a
client whose broadcast-accumulated set missed it — the ranking reveal never
consults the store. -/
theorem claim_C1_counterexample :
    (getRankingResponses none 0 (.ok [⟨"q1", "A", 1⟩])).1 = [⟨"q1", "A", 1⟩]
    ∧ (rankingHandleShowResults ⟨.answering, "Q", "q1", [], "B", "Bea", "s1"⟩).responses.lookup "A"
        = none
    ∧ (rankingHandleShowResults ⟨.answering, "Q", "q1", [], "B", "Bea", "s1"⟩).responses
        = (⟨.answering, "Q", "q1", [], "B", "Bea", "s1"⟩ : RankingState).responses := by
  refine ⟨rfl, rfl, rfl⟩

/-- C1 amended: only the survey game re-reads the round answer set from
the store of record when reveal is triggered (so every answer persisted
before the trigger appears in the revealed map, provided no fresh cache
entry short-circuits the read); the ranking and synchro reveals keep the
locally accumulated broadcast set unchanged. -/
theorem claim_C1_reveal_authority :
    (∀ (s : SurveyState) (now : Nat) (rows : List GameResponseRow),
      s.questionId ≠ "" →
      (rows.map fun r => r.participant_id).Nodup →
      ∀ r ∈ rows,
        ((surveyHandleShowResults s none now (.ok rows)).1.responses.lookup r.participant_id
          = some r.response))
    ∧ (∀ s : RankingState, (rankingHandleShowResults s).responses = s.responses)
    ∧ (∀ s : SynchroState, (synchroHandleShowResults s).responses = s.responses) := by
  refine ⟨?_, fun s => rfl, fun s => rfl⟩
  intro s now rows hq hnd r hr
  have hqb : (s.questionId != "") = true := by simpa using hq
  simp only [surveyHandleShowResults, hqb, if_pos]
  exact lookup_responseMapOf rows hnd r hr

/-- Witness for the amended C1 at a concrete input: with participant A
persisted in the store and missing from the local set, the survey reveal
includes A while the ranking reveal keeps the local set. -/
theorem claim_C1_reveal_authority_witness :
    ((surveyHandleShowResults ⟨.answering, "Q", "q1", [], "B", "Bea", "s1"⟩ none 0
        (.ok [⟨"q1", "A", true⟩])).1.responses.lookup "A" = some true)
    ∧ (rankingHandleShowResults ⟨.answering, "Q", "q1", [("B", 2)], "B", "Bea", "s1"⟩).responses
        = [("B", 2)] := by
  constructor
  · exact claim_C1_reveal_authority.1 ⟨.answering, "Q", "q1", [], "B", "Bea", "s1"⟩ 0
      [⟨"q1", "A", true⟩] (by decide) (by decide) ⟨"q1", "A", true⟩ (by decide)
  · exact claim_C1_reveal_authority.2.1 ⟨.answering, "Q", "q1", [("B", 2)], "B", "Bea", "s1"⟩

/-! ## Pre-reveal aggregates of the survey game -/

/-- Embedding of the survey answer_submitted broadcast handler: the payload
carries the submitting participant id and the boolean answer, and the
handler records the pair in the responses object. -/
def surveyHandleAnswerSubmitted (s : SurveyState) (participantId : String)
    (answer : Bool) : SurveyState :=
  { s with responses := objInsert s.responses participantId answer }

/-- Embedding of `Object.values(gameState.responses).filter(Boolean).length`. -/
def yesCount (s : SurveyState) : Nat := (objValues s.responses).countP (fun b => b)

/-- Embedding of `Object.keys(gameState.responses).length`. -/
def totalResponses (s : SurveyState) : Nat := (objKeys s.responses).length

/-- C6 counterexample: two pre-reveal survey states with identical
aggregates (same yesCount and totalResponses) differ as engine states, and
each reveals which participant submitted which answer: the per-participant
mapping is held in the engine state (and arrives through the
answer_submitted payload), so the states are distinguishable. -/
theorem claim_C6_counterexample :
    yesCount ⟨.answering, "Q", "q1", [("A", true), ("B", false)], "C", "Cho", "s1"⟩
      = yesCount ⟨.answering, "Q", "q1", [("A", false), ("B", true)], "C", "Cho", "s1"⟩
    ∧ totalResponses ⟨.answering, "Q", "q1", [("A", true), ("B", false)], "C", "Cho", "s1"⟩
      = totalResponses ⟨.answering, "Q", "q1", [("A", false), ("B", true)], "C", "Cho", "s1"⟩
    ∧ (⟨.answering, "Q", "q1", [("A", true), ("B", false)], "C", "Cho", "s1"⟩ : SurveyState).phase
        ≠ .results
    ∧ (⟨.answering, "Q", "q1", [("A", true), ("B", false)], "C", "Cho", "s1"⟩ : SurveyState)
        ≠ ⟨.answering, "Q", "q1", [("A", false), ("B", true)], "C", "Cho", "s1"⟩
    ∧ (⟨.answering, "Q", "q1", [("A", true), ("B", false)], "C", "Cho", "s1"⟩
        : SurveyState).responses.lookup "A" = some true
    ∧ (⟨.answering, "Q", "q1", [("A", false), ("B", true)], "C", "Cho", "s1"⟩
        : SurveyState).responses.lookup "A" = some false := by
  refine ⟨rfl, rfl, by decide, by decide, rfl, rfl⟩

/-- C6 amended: before reveal the survey client displays only the
aggregate — yesCount and totalResponses are functions of the answer value
multiset alone — but identity-hiding does not extend to the engine state or
the broadcast layer: the answer_submitted payload names the submitting
participant, and the handler stores the participant-to-answer mapping, from
which who answered what is recoverable. -/
theorem claim_C6_aggregate_display :
    (∀ s t : SurveyState, (objValues s.responses).Perm (objValues t.responses) →
      yesCount s = yesCount t ∧ totalResponses s = totalResponses t)
    ∧ (∀ (s : SurveyState) (pid : String) (ans : Bool),
      (surveyHandleAnswerSubmitted s pid ans).responses.lookup pid = some ans) := by
  constructor
  · intro s t h
    constructor
    · simp [yesCount, h.countP_eq]
    · have hs : totalResponses s = (objValues s.responses).length := by
        simp [totalResponses, objKeys, objValues]
      have ht2 : totalResponses t = (objValues t.responses).length := by
        simp [totalResponses, objKeys, objValues]
      rw [hs, ht2, h.length_eq]
  · intro s pid ans
    exact lookup_objInsert_self s.responses pid ans

/-- Witness for the amended C6 at concrete states with equal aggregates. -/
theorem claim_C6_aggregate_display_witness :
    (yesCount ⟨.answering, "Q", "q1", [("A", true), ("B", false)], "C", "Cho", "s1"⟩
       = yesCount ⟨.answering, "Q", "q1", [("A", false), ("B", true)], "C", "Cho", "s1"⟩)
    ∧ ((surveyHandleAnswerSubmitted
          ⟨.answering, "Q", "q1", [], "C", "Cho", "s1"⟩ "A" true).responses.lookup "A"
        = some true) := by
  constructor
  · exact (claim_C6_aggregate_display.1
      ⟨.answering, "Q", "q1", [("A", true), ("B", false)], "C", "Cho", "s1"⟩
      ⟨.answering, "Q", "q1", [("A", false), ("B", true)], "C", "Cho", "s1"⟩
      (List.Perm.swap false true [])).1
  · exact claim_C6_aggregate_display.2 ⟨.answering, "Q", "q1", [], "C", "Cho", "s1"⟩ "A" true

/-! ## Deduction game (WerewolfGame.tsx and werewolfService)

The vote tally of handleShowResults is a pure function of the votes read
back from the store, the assignments, the current phase and the local vote
round; we embed it as such, returning the broadcast or phase-change it
performs together with the resulting local vote round. -/

inductive WPhase
  | setup
  | talk
  | vote
  | sudden_death
  | reverse_chance
  | finished
deriving DecidableEq, Repr

inductive WWinner
  | citizen
  | werewolf
deriving DecidableEq, Repr

structure WerewolfVote where
  voter_id : String
  target_id : String
deriving DecidableEq, Repr

structure WerewolfAssignment where
  participant_id : String
  role : String
  topic : String
deriving DecidableEq, Repr

structure WGameResult where
  winner : Option WWinner
  eliminatedPlayer : Option String
  werewolfGuess : Option String
  isCorrectGuess : Bool
deriving DecidableEq, Repr

/-- Keys of the voteCount tally object, in first-appearance order. -/
def voteTargets (votes : List WerewolfVote) : List String :=
  (votes.map fun v => v.target_id).dedup

/-- Value of the voteCount tally at one target id. -/
def voteCountOf (votes : List WerewolfVote) (id : String) : Nat :=
  votes.countP fun v => v.target_id == id

/-- Embedding of `Math.max(...Object.values(voteCount))`. -/
def maxVotes (votes : List WerewolfVote) : Nat :=
  (voteTargets votes).foldl (fun m id => max m (voteCountOf votes id)) 0

/-- Embedding of `Object.keys(voteCount).filter(id => voteCount[id] === maxVotes)`. -/
def eliminatedCandidates (votes : List WerewolfVote) : List String :=
  (voteTargets votes).filter fun id => voteCountOf votes id == maxVotes votes

/-- Action taken by handleShowResults: bail out on an empty tally, end the
game broadcasting a result, or persist-and-broadcast a phase change. -/
inductive ShowResultsOutcome
  | noVotes
  | gameEnd (result : WGameResult)
  | phaseChange (phase : WPhase)
deriving DecidableEq, Repr

/-- Embedding of WerewolfGame.tsx handleShowResults, returning the action
and the local vote round after the call. -/
def werewolfHandleShowResults (phase : WPhase) (voteRound : Nat)
    (reverseMode : Bool) (votes : List WerewolfVote)
    (assignments : List WerewolfAssignment) : ShowResultsOutcome × Nat :=
  if votes.length == 0 then (.noVotes, voteRound)
  else
    let cands := eliminatedCandidates votes
    if 1 < cands.length then
      if phase == .sudden_death then
        (.gameEnd ⟨some .werewolf, none, none, false⟩, voteRound)
      else
        (.phaseChange .sudden_death, voteRound + 1)
    else
      let eliminatedId := cands.headD ""
      let eliminatedRole :=
        (assignments.find? fun a => a.participant_id == eliminatedId).map fun a => a.role
      let isWerewolfEliminated := eliminatedRole == some "werewolf"
      if isWerewolfEliminated && reverseMode then
        (.phaseChange .reverse_chance, voteRound)
      else
        (.gameEnd ⟨some (if isWerewolfEliminated then .citizen else .werewolf),
          some eliminatedId, none, false⟩, voteRound)

/-- Embedding of the werewolf_phase_change broadcast handler effect on the
local votes object: entering vote or sudden_death clears it. -/
def werewolfHandlePhaseChangeVotes (votes : List (String × String))
    (newPhase : WPhase) : List (String × String) :=
  if newPhase == .vote || newPhase == .sudden_death then [] else votes

/-- C2: on a tied maximum, a tally performed while already in SuddenDeath
ends the game with the werewolf (minority) winning and no round increment;
a tally in any other phase increments the local vote round and moves to
SuddenDeath, whose phase-change event clears the votes object. -/
theorem claim_C2_sudden_death_tie (phase : WPhase) (voteRound : Nat)
    (reverseMode : Bool) (votes : List WerewolfVote)
    (assignments : List WerewolfAssignment)
    (hne : votes ≠ []) (htie : 1 < (eliminatedCandidates votes).length) :
    (phase = .sudden_death →
      werewolfHandleShowResults phase voteRound reverseMode votes assignments
        = (.gameEnd ⟨some .werewolf, none, none, false⟩, voteRound))
    ∧ (phase ≠ .sudden_death →
      werewolfHandleShowResults phase voteRound reverseMode votes assignments
        = (.phaseChange .sudden_death, voteRound + 1)
      ∧ ∀ vm : List (String × String),
          werewolfHandlePhaseChangeVotes vm .sudden_death = []) := by
  have hlen : ¬ (votes.length == 0) = true := by
    simp only [beq_iff_eq, List.length_eq_zero]
    exact hne
  constructor
  · intro hph
    simp [werewolfHandleShowResults, hlen, htie, hph]
  · intro hph
    have hphb : ¬ (phase == WPhase.sudden_death) = true := by simpa using hph
    refine ⟨?_, fun vm => rfl⟩
    simp [werewolfHandleShowResults, hlen, htie, hphb]

/-- Witness for C2 at the spec test vector: votes A and B with one vote
each tie; in SuddenDeath the werewolf wins with the round unchanged, and
from the vote phase the round increments and votes clear. -/
theorem claim_C2_sudden_death_tie_witness :
    (werewolfHandleShowResults .sudden_death 2 false [⟨"p1", "A"⟩, ⟨"p2", "B"⟩] []
      = (.gameEnd ⟨some .werewolf, none, none, false⟩, 2))
    ∧ (werewolfHandleShowResults .vote 1 false [⟨"p1", "A"⟩, ⟨"p2", "B"⟩] []
      = (.phaseChange .sudden_death, 2))
    ∧ werewolfHandlePhaseChangeVotes [("p1", "A"), ("p2", "B")] .sudden_death = [] := by
  have h1 := claim_C2_sudden_death_tie .sudden_death 2 false
    [⟨"p1", "A"⟩, ⟨"p2", "B"⟩] [] (by decide) (by decide)
  have h2 := claim_C2_sudden_death_tie .vote 1 false
    [⟨"p1", "A"⟩, ⟨"p2", "B"⟩] [] (by decide) (by decide)
  exact ⟨h1.1 rfl, (h2.2 (by decide)).1, (h2.2 (by decide)).2 [("p1", "A"), ("p2", "B")]⟩

/-! ## Vote submission and the self-vote constraint -/

structure WerewolfVoteRow where
  session_id : String
  voter_id : String
  target_id : String
  vote_round : Nat
deriving DecidableEq, Repr

/-- CHECK (voter_id != target_id) on werewolf_votes, from migration
20250904185504_billowing_mountain.sql. -/
def voteRowPassesCheck (v : WerewolfVoteRow) : Bool := v.voter_id != v.target_id

/-- UNIQUE(session_id, voter_id, vote_round) key equality on werewolf_votes. -/
def sameVoteKey (a b : WerewolfVoteRow) : Bool :=
  a.session_id == b.session_id && a.voter_id == b.voter_id && a.vote_round == b.vote_round

/-- Embedding of werewolfService.submitVote: an upsert into werewolf_votes
on the unique key; the table CHECK rejects a row whose voter equals its
target before anything is written, and the service rethrows that failure;
on success the row replaces the row with the same key or is appended. -/
def submitVote (rows : List WerewolfVoteRow) (sessionId voterId targetId : String)
    (voteRound : Nat) : Except String (List WerewolfVoteRow) :=
  let v : WerewolfVoteRow := ⟨sessionId, voterId, targetId, voteRound⟩
  if voteRowPassesCheck v = false then .error "werewolf_votes_check"
  else if rows.any (sameVoteKey v) then
    .ok (rows.map fun r => if sameVoteKey v r then v else r)
  else .ok (rows ++ [v])

/-- Vote buttons offered by the WerewolfGame vote phase: the participant
list filtered to exclude the current participant. -/
def voteChoices (participantIds : List String) (currentId : String) : List String :=
  participantIds.filter fun id => id != currentId

/-- C3: a self-vote is rejected (the CHECK fires before any row is
persisted, and the store is left unchanged); consequently no store state
reachable through submitVote contains a row with voter equal to target;
moreover the vote UI never offers the current participant as a target. -/
theorem claim_C3_self_vote_rejected (rows : List WerewolfVoteRow)
    (s vo t : String) (round : Nat) :
    (vo = t → submitVote rows s vo t round = .error "werewolf_votes_check")
    ∧ ((∀ r ∈ rows, r.voter_id ≠ r.target_id) →
       ∀ rows2, submitVote rows s vo t round = .ok rows2 →
         ∀ r ∈ rows2, r.voter_id ≠ r.target_id)
    ∧ (∀ participantIds : List String, vo ∉ voteChoices participantIds vo) := by
  refine ⟨?_, ?_, ?_⟩
  · intro hself
    simp [submitVote, voteRowPassesCheck, hself]
  · intro hinv rows2 hok r hr
    by_cases hself : vo = t
    · simp [submitVote, voteRowPassesCheck, hself] at hok
    · by_cases hany : rows.any (sameVoteKey ⟨s, vo, t, round⟩) = true
      · have hok2 : rows2
            = rows.map fun r => if sameVoteKey ⟨s, vo, t, round⟩ r then
                ⟨s, vo, t, round⟩ else r := by
          simp [submitVote, voteRowPassesCheck, hself, hany] at hok
          exact hok.symm
        subst hok2
        rcases List.mem_map.mp hr with ⟨r0, hr0, hval⟩
        by_cases hkey : sameVoteKey ⟨s, vo, t, round⟩ r0 = true
        · rw [if_pos hkey] at hval
          rw [← hval]
          exact hself
        · rw [if_neg hkey] at hval
          exact hval ▸ hinv r0 hr0
      · have hok2 : rows2 = rows ++ [⟨s, vo, t, round⟩] := by
          simp [submitVote, voteRowPassesCheck, hself, hany] at hok
          exact hok.symm
        subst hok2
        rcases List.mem_append.mp hr with hmem | hmem
        · exact hinv r hmem
        · have : r = ⟨s, vo, t, round⟩ := by simpa using hmem
          rw [this]
          exact hself
  · intro participantIds hmem
    have := (List.mem_filter.mp hmem).2
    simp at this

/-- Witness for C3 at concrete inputs: a self-vote by p1 errors leaving
the empty store empty, and a proper vote preserves the no-self-vote row
invariant. -/
theorem claim_C3_self_vote_rejected_witness :
    (submitVote [] "s1" "p1" "p1" 1 = .error "werewolf_votes_check")
    ∧ (∀ r ∈ [(⟨"s1", "p1", "p2", 1⟩ : WerewolfVoteRow)], r.voter_id ≠ r.target_id) := by
  constructor
  · exact (claim_C3_self_vote_rejected [] "s1" "p1" "p1" 1).1 rfl
  · exact (claim_C3_self_vote_rejected [] "s1" "p1" "p2" 1).2.1 (by simp)
      [⟨"s1", "p1", "p2", 1⟩] rfl

/-! ## ReverseChance guess resolution -/

/-- Embedding of WerewolfGame.tsx handleWerewolfGuess: a blank guess is
ignored; otherwise the trimmed guess is compared with the citizen topic by
exact string equality and the game-end result is built and broadcast. -/
def werewolfHandleGuess (citizenTopic : String) (guess : String)
    (participantId : String) : Option WGameResult :=
  if jsTrim guess == "" then none
  else
    let isCorrect := jsTrim guess == citizenTopic
    some ⟨some (if isCorrect then .werewolf else .citizen), some participantId,
      some (jsTrim guess), isCorrect⟩

/-- Embedding of the werewolf_game_end broadcast handler: every client sets
its phase to finished and installs the carried result. -/
def werewolfHandleGameEnd (phase : WPhase) (gameResult : WGameResult)
    (result : WGameResult) : WPhase × WGameResult :=
  (.finished, result)

/-- C8: a non-blank ReverseChance guess ends the game; the werewolf wins
solo exactly when the submitted (trimmed) guess equals the citizen topic
under exact string equality, the citizens win otherwise, and the game-end
event drives every client to the finished phase. -/
theorem claim_C8_reverse_chance_guess (citizenTopic guess pid : String)
    (h : jsTrim guess ≠ "") :
    ∃ r : WGameResult, werewolfHandleGuess citizenTopic guess pid = some r
      ∧ (r.winner = some .werewolf ↔ jsTrim guess = citizenTopic)
      ∧ (jsTrim guess ≠ citizenTopic → r.winner = some .citizen)
      ∧ r.isCorrectGuess = (jsTrim guess == citizenTopic)
      ∧ ∀ (ph : WPhase) (gr : WGameResult),
          werewolfHandleGameEnd ph gr r = (.finished, r) := by
  have hb : ¬ (jsTrim guess == "") = true := by simpa using h
  by_cases hc : jsTrim guess = citizenTopic
  · refine ⟨⟨some .werewolf, some pid, some (jsTrim guess), jsTrim guess == citizenTopic⟩,
      ?_, ?_, ?_, rfl, fun ph gr => rfl⟩
    · simp only [werewolfHandleGuess, if_neg hb]
      simp [hc]
    · simp [hc]
    · intro hcc; exact absurd hc hcc
  · refine ⟨⟨some .citizen, some pid, some (jsTrim guess), jsTrim guess == citizenTopic⟩,
      ?_, ?_, ?_, rfl, fun ph gr => rfl⟩
    · simp only [werewolfHandleGuess, if_neg hb]
      simp [hc]
    · simp [hc]
    · intro hcc; rfl

/-- Witness for C8 at concrete inputs: guessing the citizen topic exactly
wins for the werewolf; any textual difference loses. -/
theorem claim_C8_reverse_chance_guess_witness :
    (∃ r : WGameResult, werewolfHandleGuess "coffee" " coffee " "p1" = some r
      ∧ (r.winner = some .werewolf ↔ jsTrim " coffee " = "coffee")
      ∧ (jsTrim " coffee " ≠ "coffee" → r.winner = some .citizen)
      ∧ r.isCorrectGuess = (jsTrim " coffee " == "coffee")
      ∧ ∀ (ph : WPhase) (gr : WGameResult),
          werewolfHandleGameEnd ph gr r = (.finished, r))
    ∧ werewolfHandleGuess "coffee" "tea" "p1"
        = some ⟨some .citizen, some "p1", some "tea", false⟩ := by
  constructor
  · exact claim_C8_reverse_chance_guess "coffee" " coffee " "p1" (by decide)
  · decide

/-! ## The per-key guard withGameLock (gameService.ts lines 13-51)

All operations below share one key, so the state is the entry of
gameOperationLocks and gameOperationQueues for that key, plus bookkeeping
of which operations are executing.  The source distinguishes two
execution paths: a caller that found the lock free sets it and, in its
finally block, deletes the lock, shifts one queued closure and schedules
it with setTimeout; a queued closure merely awaits the operation and
resolves — it neither sets nor releases the lock and never drains the
queue further.  The event alphabet makes each of these moments explicit
so that interleavings of the single-threaded event loop are traces. -/

inductive LockEvent
  | call (op : Nat)
  | finishHolder (op : Nat)
  | startQueued (op : Nat)
  | finishQueued (op : Nat)
deriving DecidableEq, Repr

structure LockState where
  locked : Bool
  queue : List Nat
  scheduled : List Nat
  runningHolder : Option Nat
  runningQueued : List Nat
  done : List Nat
deriving DecidableEq, Repr

def lockStart : LockState := ⟨false, [], [], none, [], []⟩

/-- One event of the embedded withGameLock semantics; `none` means the
event is not enabled in the given state. -/
def lockStep (s : LockState) (e : LockEvent) : Option LockState :=
  match e with
  | .call op =>
    if s.locked then some { s with queue := s.queue ++ [op] }
    else some { s with locked := true, runningHolder := some op }
  | .finishHolder op =>
    if s.runningHolder == some op then
      match s.queue with
      | [] =>
        some { s with
                locked := false, runningHolder := none, done := s.done ++ [op] }
      | q :: rest =>
        some { s with
                locked := false, runningHolder := none, queue := rest,
                scheduled := s.scheduled ++ [q], done := s.done ++ [op] }
    else none
  | .startQueued op =>
    match s.scheduled with
    | q :: rest =>
      if q == op then
        some { s with scheduled := rest, runningQueued := s.runningQueued ++ [op] }
      else none
    | [] => none
  | .finishQueued op =>
    if s.runningQueued.contains op then
      some { s with runningQueued := s.runningQueued.erase op, done := s.done ++ [op] }
    else none

/-- Run of a whole event trace from the initial state. -/
def runLock (events : List LockEvent) : Option LockState :=
  events.foldl (fun acc e => acc.bind fun s => lockStep s e) (some lockStart)

/-- Operations executing at a given instant. -/
def runningOps (s : LockState) : List Nat := s.runningHolder.toList ++ s.runningQueued

/-- C7: the guard is not a mutex.  On the trace where operation 0 holds
the lock, operation 1 queues behind it, 0 finishes (releasing the lock and
scheduling 1), a fresh caller 2 then takes the lock, and the scheduled 1
starts, operations 2 and 1 execute concurrently under the same key —
and on the trace with two queued callers, after the scheduled one runs
nothing ever dequeues the second: it sits in the queue of a state in which
no finishHolder, startQueued or finishQueued event is enabled, so only yet
another caller could ever dislodge it. -/
theorem claim_C7_withGameLock_not_mutex :
    (runLock [.call 0, .call 1, .finishHolder 0, .call 2, .startQueued 1]
      = some ⟨true, [], [], some 2, [1], [0]⟩)
    ∧ runningOps ⟨true, [], [], some 2, [1], [0]⟩ = [2, 1]
    ∧ (runLock [.call 0, .call 1, .call 2, .finishHolder 0, .startQueued 1, .finishQueued 1]
      = some ⟨false, [2], [], none, [], [0, 1]⟩)
    ∧ (∀ op : Nat, lockStep ⟨false, [2], [], none, [], [0, 1]⟩ (.finishHolder op) = none
        ∧ lockStep ⟨false, [2], [], none, [], [0, 1]⟩ (.startQueued op) = none
        ∧ lockStep ⟨false, [2], [], none, [], [0, 1]⟩ (.finishQueued op) = none) := by
  refine ⟨rfl, rfl, rfl, ?_⟩
  intro op
  refine ⟨?_, rfl, ?_⟩
  · simp [lockStep]
  · simp [lockStep]

/-! ## Fallible reads of the services (C9)

Each read wraps one store query in try/catch; the catch substitutes null
for single-row reads and the empty collection for multi-row reads, so no
error reaches the caller. -/

structure WerewolfSessionRow where
  id : String
  room_id : String
  citizen_topic : String
  werewolf_topic : String
  phase : WPhase
  talk_time_seconds : Nat
  reverse_mode : Bool
deriving DecidableEq, Repr

structure WerewolfAssignmentRow where
  session_id : String
  participant_id : String
  role : String
  topic : String
deriving DecidableEq, Repr

/-- werewolfService.getVotes: catch returns the empty list. -/
def werewolfGetVotes (qres : QueryResult (List WerewolfVoteRow)) :
    List WerewolfVoteRow :=
  match qres with
  | .ok d => d
  | .err _ => []

/-- werewolfService.getAssignment: catch returns null. -/
def werewolfGetAssignment (qres : QueryResult (Option WerewolfAssignmentRow)) :
    Option WerewolfAssignmentRow :=
  match qres with
  | .ok d => d
  | .err _ => none

/-- werewolfService.getAllAssignments: catch returns the empty list. -/
def werewolfGetAllAssignments (qres : QueryResult (List WerewolfAssignmentRow)) :
    List WerewolfAssignmentRow :=
  match qres with
  | .ok d => d
  | .err _ => []

/-- werewolfService.getSession: catch returns null. -/
def werewolfGetSession (qres : QueryResult (Option WerewolfSessionRow)) :
    Option WerewolfSessionRow :=
  match qres with
  | .ok d => d
  | .err _ => none

/-- werewolfService.getActiveSession: catch returns null. -/
def werewolfGetActiveSession (qres : QueryResult (Option WerewolfSessionRow)) :
    Option WerewolfSessionRow :=
  match qres with
  | .ok d => d
  | .err _ => none

/-- C9: every service read degrades a failed store query to its fallback —
null for the single-row reads, the empty collection for the multi-row
reads — instead of propagating the error (for the three cached reads this
concerns the paths that actually reach the store, i.e. no sub-2-second
cache entry). -/
theorem claim_C9_reads_never_throw :
    (∀ e, getActiveGameSession (.err e) = none)
    ∧ (∀ (cache : Option (List GameResponseRow × Nat)) (now : Nat) e,
        (∀ d ts, cache = some (d, ts) → ¬ (now - ts < CACHE_DURATION)) →
        (getQuestionResponses cache now (.err e)).1 = [])
    ∧ (∀ (cache : Option (List RankingResponseRow × Nat)) (now : Nat) e,
        (∀ d ts, cache = some (d, ts) → ¬ (now - ts < CACHE_DURATION)) →
        (getRankingResponses cache now (.err e)).1 = [])
    ∧ (∀ (cache : Option (List SynchroResponseRow × Nat)) (now : Nat) e,
        (∀ d ts, cache = some (d, ts) → ¬ (now - ts < CACHE_DURATION)) →
        (getSynchroResponses cache now (.err e)).1 = [])
    ∧ (∀ e, getActiveQuestions (.err e) = ([], [], []))
    ∧ (∀ e, werewolfGetVotes (.err e) = [])
    ∧ (∀ e, werewolfGetAssignment (.err e) = none)
    ∧ (∀ e, werewolfGetAllAssignments (.err e) = [])
    ∧ (∀ e, werewolfGetSession (.err e) = none)
    ∧ (∀ e, werewolfGetActiveSession (.err e) = none) := by
  refine ⟨fun e => rfl, ?_, ?_, ?_, fun e => rfl, fun e => rfl, fun e => rfl,
    fun e => rfl, fun e => rfl, fun e => rfl⟩
  all_goals
    intro cache now e hstale
    match cache with
    | none => rfl
    | some (d, ts) =>
      have h := hstale d ts rfl
      simp only [getQuestionResponses, getRankingResponses, getSynchroResponses,
        cachedListRead, if_neg h]

/-- Witness for C9 with empty caches and a concrete query error. -/
theorem claim_C9_reads_never_throw_witness :
    (getQuestionResponses none 0 (.err "network down")).1 = []
    ∧ getActiveGameSession (.err "network down") = none :=
  ⟨claim_C9_reads_never_throw.2.1 none 0 "network down" (fun d ts h => by cases h),
   claim_C9_reads_never_throw.1 "network down"⟩

/-! ## joinRoom nickname eviction (roomService.ts lines 60-92)

The participants table carries UNIQUE(session_token) and
UNIQUE(room_id, nickname) (part_000).  joinRoom first deletes every
participant of the room holding the requested nickname under a different
session token, then upserts the caller keyed on session_token. -/

structure ParticipantRow where
  id : String
  room_id : String
  nickname : String
  session_token : String
  is_online : Bool
deriving DecidableEq, Repr

/-- Embedding of the delete in joinRoom: drop rows of this room with the
same nickname but a different session token. -/
def deleteSameNicknameOtherSession (rows : List ParticipantRow)
    (roomId nickname tok : String) : List ParticipantRow :=
  rows.filter fun p =>
    !(p.room_id == roomId && p.nickname == nickname && p.session_token != tok)

/-- Detects a violation of UNIQUE(room_id, nickname): two rows agreeing on
room and nickname. -/
def hasRoomNickConflict : List ParticipantRow → Bool
  | [] => false
  | p :: rest =>
    rest.any (fun q => p.room_id == q.room_id && p.nickname == q.nickname)
      || hasRoomNickConflict rest

/-- Embedding of the upsert in joinRoom, onConflict session_token: an
existing row with the same token is updated in place (keeping its id),
otherwise the row is inserted; the store then enforces
UNIQUE(room_id, nickname) and fails the write when two rows collide. -/
def upsertParticipantByToken (rows : List ParticipantRow) (row : ParticipantRow) :
    Except String (List ParticipantRow) :=
  let next :=
    if rows.any fun p => p.session_token == row.session_token then
      rows.map fun p =>
        if p.session_token == row.session_token then { row with id := p.id } else p
    else rows ++ [row]
  if hasRoomNickConflict next then .error "participants_room_id_nickname_key"
  else .ok next

/-- Embedding of roomService.joinRoom restricted to the participants table:
delete same-nickname rows under other tokens, then upsert the caller. -/
def joinRoom (rows : List ParticipantRow) (roomId nickname tok freshId : String) :
    Except String (List ParticipantRow) :=
  upsertParticipantByToken (deleteSameNicknameOtherSession rows roomId nickname tok)
    ⟨freshId, roomId, nickname, tok, true⟩

theorem hasRoomNickConflict_eq_false_iff (l : List ParticipantRow) :
    hasRoomNickConflict l = false ↔
      l.Pairwise fun a b => ¬(a.room_id = b.room_id ∧ a.nickname = b.nickname) := by
  induction l with
  | nil => simp [hasRoomNickConflict]
  | cons p rest ih =>
    simp only [hasRoomNickConflict, Bool.or_eq_false_iff, List.pairwise_cons, ih]
    constructor
    · rintro ⟨hany, hrest⟩
      rw [List.any_eq_false] at hany
      refine ⟨fun b hb => ?_, hrest⟩
      have hb2 := hany b hb
      intro hcon
      exact hb2 (by simp [hcon.1, hcon.2])
    · rintro ⟨hfst, hrest⟩
      refine ⟨?_, hrest⟩
      rw [List.any_eq_false]
      intro b hb
      have hb2 := hfst b hb
      simp only [Bool.and_eq_true, beq_iff_eq, not_and]
      intro h1 h2
      exact hb2 ⟨h1, h2⟩

theorem mem_cleaned_nickname_token (rows : List ParticipantRow)
    (roomId nickname tok : String) (p : ParticipantRow)
    (hp : p ∈ deleteSameNicknameOtherSession rows roomId nickname tok)
    (hr : p.room_id = roomId) (hn : p.nickname = nickname) :
    p.session_token = tok := by
  have h2 := (List.mem_filter.mp hp).2
  simp [hr, hn] at h2
  exact h2

/-- C10: under the store uniqueness invariants, joinRoom always succeeds —
an existing holder of the nickname under another session token is deleted
first, so the upsert cannot hit the room/nickname uniqueness conflict —
and afterwards exactly one participant of the room holds the nickname,
namely the caller (identified by the session token). -/
theorem claim_C10_joinRoom_evicts_nickname (rows : List ParticipantRow)
    (roomId nickname tok freshId : String)
    (htok : (rows.map fun p => p.session_token).Nodup)
    (hrn : hasRoomNickConflict rows = false) :
    ∃ rows2, joinRoom rows roomId nickname tok freshId = .ok rows2
      ∧ (∀ p ∈ rows2, p.room_id = roomId → p.nickname = nickname →
          p.session_token = tok)
      ∧ (∃ p ∈ rows2, p.room_id = roomId ∧ p.nickname = nickname
          ∧ p.session_token = tok)
      ∧ (∀ p ∈ rows2, ∀ q ∈ rows2, p.room_id = roomId → p.nickname = nickname →
          q.room_id = roomId → q.nickname = nickname → p = q) := by
  set newRow : ParticipantRow := ⟨freshId, roomId, nickname, tok, true⟩ with hnew
  set cleaned := deleteSameNicknameOtherSession rows roomId nickname tok with hcl
  have hsub : cleaned.Sublist rows := List.filter_sublist rows
  have htokc : (cleaned.map fun p => p.session_token).Nodup :=
    htok.sublist (hsub.map fun p => p.session_token)
  have hPc : cleaned.Pairwise
      (fun a b => ¬(a.room_id = b.room_id ∧ a.nickname = b.nickname)) :=
    ((hasRoomNickConflict_eq_false_iff rows).mp hrn).sublist hsub
  have htokne : cleaned.Pairwise fun a b => a.session_token ≠ b.session_token :=
    List.pairwise_map.mp htokc
  have hmemtok : ∀ p ∈ cleaned, p.room_id = roomId → p.nickname = nickname →
      p.session_token = tok :=
    fun p hp => mem_cleaned_nickname_token rows roomId nickname tok p hp
  by_cases hcase : (cleaned.any fun p => p.session_token == newRow.session_token) = true
  · -- a row with the caller token already exists: the upsert updates in place
    set upd : ParticipantRow → ParticipantRow := fun p =>
      if p.session_token == newRow.session_token then { newRow with id := p.id }
      else p with hupd
    have hupd_tok_row : ∀ p : ParticipantRow, p.session_token = tok →
        upd p = { newRow with id := p.id } := by
      intro p h
      have hb : (p.session_token == newRow.session_token) = true := by
        simp [hnew, h]
      simp only [hupd]
      rw [if_pos hb]
    have hupd_keep : ∀ p : ParticipantRow, p.session_token ≠ tok → upd p = p := by
      intro p h
      have hb : ¬ (p.session_token == newRow.session_token) = true := by
        simp [hnew, h]
      simp only [hupd]
      rw [if_neg hb]
    have hupd_tok : ∀ p : ParticipantRow, (upd p).session_token = p.session_token := by
      intro p
      by_cases h : p.session_token = tok
      · rw [hupd_tok_row p h, h]
      · rw [hupd_keep p h]
    set next := cleaned.map upd with hnx
    have hnextP : next.Pairwise
        (fun a b => ¬(a.room_id = b.room_id ∧ a.nickname = b.nickname)) := by
      rw [hnx, List.pairwise_map]
      refine (hPc.and htokne).imp_of_mem ?_
      intro a b ha hb hab
      by_cases hat : a.session_token = tok
      · by_cases hbt : b.session_token = tok
        · exact absurd (hat.trans hbt.symm) hab.2
        · rw [hupd_tok_row a hat, hupd_keep b hbt]
          rintro ⟨h1, h2⟩
          exact hbt (hmemtok b hb h1.symm h2.symm)
      · by_cases hbt : b.session_token = tok
        · rw [hupd_keep a hat, hupd_tok_row b hbt]
          rintro ⟨h1, h2⟩
          exact hat (hmemtok a ha h1 h2)
        · rw [hupd_keep a hat, hupd_keep b hbt]
          exact hab.1
    have hconf : hasRoomNickConflict next = false :=
      (hasRoomNickConflict_eq_false_iff next).mpr hnextP
    have hok : joinRoom rows roomId nickname tok freshId = .ok next := by
      simp only [joinRoom, upsertParticipantByToken, ← hcl, hcase, if_pos, ← hnew,
        ← hupd, ← hnx, hconf, Bool.false_eq_true, if_false]
    refine ⟨next, hok, ?_, ?_, ?_⟩
    · intro p hp hr hn
      rcases List.mem_map.mp hp with ⟨p0, hp0, hval⟩
      by_cases h0 : p0.session_token = tok
      · rw [← hval, hupd_tok p0]
        exact h0
      · rw [hupd_keep p0 h0] at hval
        exact absurd (hmemtok p0 hp0 (hval ▸ hr) (hval ▸ hn)) h0
    · rcases List.any_eq_true.mp hcase with ⟨p0, hp0, hptok⟩
      have h0 : p0.session_token = tok := by simpa [hnew] using hptok
      refine ⟨upd p0, List.mem_map_of_mem upd hp0, ?_⟩
      rw [hupd_tok_row p0 h0]
      exact ⟨rfl, rfl, rfl⟩
    · have hnodup : (next.map fun p => p.session_token).Nodup := by
        rw [hnx, List.map_map]
        have : (cleaned.map fun p => (upd p).session_token)
            = cleaned.map fun p => p.session_token :=
          List.map_congr_left fun a _ => hupd_tok a
        simpa [Function.comp] using this ▸ htokc
      intro p hp q hq hpr hpn hqr hqn
      have hptok : p.session_token = tok := by
        rcases List.mem_map.mp hp with ⟨p0, hp0, hval⟩
        by_cases h0 : p0.session_token = tok
        · rw [← hval, hupd_tok p0]; exact h0
        · rw [hupd_keep p0 h0] at hval
          exact absurd (hmemtok p0 hp0 (hval ▸ hpr) (hval ▸ hpn)) h0
      have hqtok : q.session_token = tok := by
        rcases List.mem_map.mp hq with ⟨q0, hq0, hval⟩
        by_cases h0 : q0.session_token = tok
        · rw [← hval, hupd_tok q0]; exact h0
        · rw [hupd_keep q0 h0] at hval
          exact absurd (hmemtok q0 hq0 (hval ▸ hqr) (hval ▸ hqn)) h0
      exact List.inj_on_of_nodup_map hnodup hp hq (hptok.trans hqtok.symm)
  · -- no row with the caller token: the upsert appends
    have hno : ∀ p ∈ cleaned, p.session_token ≠ tok := by
      intro p hp
      have := List.any_eq_false.mp (Bool.eq_false_iff.mpr hcase) p hp
      simpa [hnew] using this
    set next := cleaned ++ [newRow] with hnx
    have hnextP : next.Pairwise
        (fun a b => ¬(a.room_id = b.room_id ∧ a.nickname = b.nickname)) := by
      rw [hnx, List.pairwise_append]
      refine ⟨hPc, List.pairwise_singleton _ _, ?_⟩
      intro a ha b hb
      have hb2 : b = newRow := by simpa using hb
      subst hb2
      rintro ⟨h1, h2⟩
      exact hno a ha (hmemtok a ha h1 h2)
    have hconf : hasRoomNickConflict next = false :=
      (hasRoomNickConflict_eq_false_iff next).mpr hnextP
    have hok : joinRoom rows roomId nickname tok freshId = .ok next := by
      simp only [joinRoom, upsertParticipantByToken, ← hcl, ← hnew, hcase,
        Bool.false_eq_true, if_false, ← hnx, hconf]
    refine ⟨next, hok, ?_, ?_, ?_⟩
    · intro p hp hr hn
      rcases List.mem_append.mp hp with hmem | hmem
      · exact absurd (hmemtok p hmem hr hn) (hno p hmem)
      · have : p = newRow := by simpa using hmem
        rw [this]
    · exact ⟨newRow, List.mem_append_right _ (by simp), rfl, rfl, rfl⟩
    · have hnodup : (next.map fun p => p.session_token).Nodup := by
        rw [hnx, List.map_append]
        refine htokc.append (by simp) ?_
        rw [List.disjoint_left]
        intro a ha hb
        rcases List.mem_map.mp ha with ⟨p0, hp0, hval⟩
        have hb2 : a = tok := by simpa [hnew] using hb
        exact hno p0 hp0 (hval.trans hb2)
      intro p hp q hq hpr hpn hqr hqn
      have hptok : p.session_token = tok := by
        rcases List.mem_append.mp hp with hmem | hmem
        · exact absurd (hmemtok p hmem hpr hpn) (hno p hmem)
        · have : p = newRow := by simpa using hmem
          rw [this]
      have hqtok : q.session_token = tok := by
        rcases List.mem_append.mp hq with hmem | hmem
        · exact absurd (hmemtok q hmem hqr hqn) (hno q hmem)
        · have : q = newRow := by simpa using hmem
          rw [this]
      exact List.inj_on_of_nodup_map hnodup hp hq (hptok.trans hqtok.symm)

/-- Witness for C10 at a concrete store: participant p1 already holds the
nickname ana in room r1 under another session token; joining as ana with
token t2 evicts p1 and leaves exactly one ana row, the caller. -/
theorem claim_C10_joinRoom_evicts_nickname_witness :
    ∃ rows2, joinRoom [⟨"p1", "r1", "ana", "t1", true⟩] "r1" "ana" "t2" "p2"
        = .ok rows2
      ∧ (∀ p ∈ rows2, p.room_id = "r1" → p.nickname = "ana" →
          p.session_token = "t2")
      ∧ (∃ p ∈ rows2, p.room_id = "r1" ∧ p.nickname = "ana"
          ∧ p.session_token = "t2")
      ∧ (∀ p ∈ rows2, ∀ q ∈ rows2, p.room_id = "r1" → p.nickname = "ana" →
          q.room_id = "r1" → q.nickname = "ana" → p = q) :=
  claim_C10_joinRoom_evicts_nickname [⟨"p1", "r1", "ana", "t1", true⟩]
    "r1" "ana" "t2" "p2" (by simp) (by decide)

end IroGame
